import Mathlib

/-!
Shallow embedding of the ScreensaverHero component
(src/components/ScreensaverHero.tsx, authoritative revision).

The embedding covers:
* the particle physics loop `animate` (wall clamp, pairwise repulsion,
  speed renormalization, Euler integration) over real-valued coordinates;
* particle creation `createParticles` with the source's `rand` helper,
  parameterized by the stream of `Math.random()` draws;
* the top-level orchestrator state (`HeroState`) and its event handlers;
* the per-box WordParticles control state (fired guards, pending timers)
  and its effect functions, including the freeze-snapshot mechanism;
* the vignette scene generation counter (`SceneM`).
-/

/-! ### Constants (TYPES & CONSTANTS section of the source) -/

noncomputable def BOUND_W : ℝ := 160
noncomputable def BOUNCE_H : ℝ := 160
noncomputable def SPEED : ℝ := 0.35
noncomputable def REP_DIST : ℝ := 60
noncomputable def REP_FORCE : ℝ := 0.25

/-! ### Particle data model -/

structure Particle where
  id : ℕ
  word : String
  x : ℝ
  y : ℝ
  vx : ℝ
  vy : ℝ

/-- Math.hypot of two arguments. -/
noncomputable def hypot (a b : ℝ) : ℝ := Real.sqrt (a ^ 2 + b ^ 2)

/-- `rand(min, max)` from the source, with `r` standing for the
`Math.random()` draw in `[0, 1)`. -/
noncomputable def rand (min max r : ℝ) : ℝ := r * (max - min) + min

/-- One particle of `createParticles`: random interior position, random
heading scaled to `SPEED`.  `r = (angle draw, x draw, y draw)`. -/
noncomputable def mkParticle (i : ℕ) (word : String) (r : ℝ × ℝ × ℝ) : Particle :=
  { id := i, word := word,
    x := rand 16 (BOUND_W - 16) r.2.1,
    y := rand 16 (BOUNCE_H - 16) r.2.2,
    vx := Real.cos (rand 0 (2 * Real.pi) r.1) * SPEED,
    vy := Real.sin (rand 0 (2 * Real.pi) r.1) * SPEED }

/-- `words.map((word, i) => ...)` with explicit running index. -/
noncomputable def createParticlesAux (rnd : ℕ → ℝ × ℝ × ℝ) : ℕ → List String → List Particle
  | _, [] => []
  | i, w :: ws => mkParticle i w (rnd i) :: createParticlesAux rnd (i + 1) ws

/-- `createParticles` from the source, parameterized by the random stream. -/
noncomputable def createParticles (words : List String) (rnd : ℕ → ℝ × ℝ × ℝ) : List Particle :=
  createParticlesAux rnd 0 words

/-- The contract of `Math.random()`: every draw lies in `[0, 1)`. -/
def validRnd (rnd : ℕ → ℝ × ℝ × ℝ) : Prop :=
  ∀ i, 0 ≤ (rnd i).1 ∧ (rnd i).1 < 1 ∧ 0 ≤ (rnd i).2.1 ∧ (rnd i).2.1 < 1 ∧
    0 ≤ (rnd i).2.2 ∧ (rnd i).2.2 < 1

/-! ### The physics frame (`animate` callback in WordParticles)

The source mutates the array in place: for each index `i` it first
resolves wall collisions for `ps[i]`, then applies repulsion impulses
between `ps[i]` and every `ps[j]` with `j > i` (mutating both), then
renormalizes and integrates `ps[i]` before moving on to `i + 1`.
-/

/-- The four sequential wall-collision `if`s for one particle. -/
noncomputable def wallStep (p : Particle) : Particle :=
  let p1 := if p.x ≤ 0 then { p with x := 0, vx := |p.vx| } else p
  let p2 := if BOUND_W ≤ p1.x then { p1 with x := BOUND_W, vx := -|p1.vx| } else p1
  let p3 := if p2.y ≤ 0 then { p2 with y := 0, vy := |p2.vy| } else p2
  if BOUNCE_H ≤ p3.y then { p3 with y := BOUNCE_H, vy := -|p3.vy| } else p3

/-- One inner-loop iteration: the repulsion impulse between `p` and `q`. -/
noncomputable def repulse (p q : Particle) : Particle × Particle :=
  let dx := p.x - q.x
  let dy := p.y - q.y
  let d := hypot dx dy
  if d < REP_DIST ∧ 0 < d then
    let f := (REP_DIST - d) / REP_DIST * REP_FORCE
    let nx := dx / d
    let ny := dy / d
    ({ p with vx := p.vx + nx * f, vy := p.vy + ny * f },
     { q with vx := q.vx - nx * f, vy := q.vy - ny * f })
  else (p, q)

/-- The inner `j` loop: `p` against every later particle in order,
accumulating impulses on `p` and updating each later particle. -/
noncomputable def repulseAll : Particle → List Particle → Particle × List Particle
  | p, [] => (p, [])
  | p, q :: rest =>
    let pq := repulse p q
    let pr := repulseAll pq.1 rest
    (pr.1, pq.2 :: pr.2)

/-- Speed renormalization: rescale to `SPEED` when the speed is nonzero. -/
noncomputable def renorm (p : Particle) : Particle :=
  let spd := hypot p.vx p.vy
  if 0 < spd then { p with vx := p.vx / spd * SPEED, vy := p.vy / spd * SPEED } else p

/-- Euler integration `p.x += p.vx; p.y += p.vy`. -/
noncomputable def integrate (p : Particle) : Particle :=
  { p with x := p.x + p.vx, y := p.y + p.vy }

/-- One whole `animate` frame over the particle array. -/
noncomputable def animate : List Particle → List Particle
  | [] => []
  | p :: rest =>
    integrate (renorm (repulseAll (wallStep p) rest).1) ::
      animate (repulseAll (wallStep p) rest).2
termination_by ps => ps.length
decreasing_by
  have h : ∀ (a : Particle) (qs : List Particle), (repulseAll a qs).2.length = qs.length := by
    intro a qs
    induction qs generalizing a with
    | nil => rfl
    | cons q rest ih => simp [repulseAll, ih]
  simp only [h, List.length_cons]
  omega

/-! ### Box phases and the top-level orchestrator (ScreensaverHero) -/

inductive BoxPhase
  | idle
  | active
  | gathering
  | closing
  | closed
deriving DecidableEq, Fintype

/-- The orchestrator's React state. -/
structure HeroState where
  phases : List BoxPhase
  defineSceneActive : Bool
  isShaking : Bool
  resetKey : ℕ
deriving DecidableEq

/-- `useState(['active','idle','idle'])` and friends. -/
def heroInit : HeroState :=
  { phases := [.active, .idle, .idle], defineSceneActive := false,
    isShaking := false, resetKey := 0 }

/-- `handleClick`: unconditionally sets box `i` to gathering. -/
def handleClick (i : ℕ) (s : HeroState) : HeroState :=
  { s with phases := s.phases.set i .gathering }

/-- `handleGatherDone`: box `i` moves to closing. -/
def handleGatherDone (i : ℕ) (s : HeroState) : HeroState :=
  { s with phases := s.phases.set i .closing }

/-- `handleClosingDone`: box `i` closes; if it is not the last box the
next box becomes active. -/
def handleClosingDone (i : ℕ) (s : HeroState) : HeroState :=
  { s with phases :=
      let n := s.phases.set i .closed
      if i + 1 < n.length then n.set (i + 1) .active else n }

/-- `handleDeployDone`: vignette A finished, start vignette B. -/
def handleDeployDone (s : HeroState) : HeroState :=
  { s with defineSceneActive := true }

/-- `handleDefineDone` (immediate part): trigger the shake. -/
def handleDefineDone (s : HeroState) : HeroState :=
  { s with isShaking := true }

/-- The body of the 500 ms `setTimeout` inside `handleDefineDone`:
full loop reset. -/
def shakeTimer (s : HeroState) : HeroState :=
  { s with
    isShaking := false, defineSceneActive := false,
    resetKey := s.resetKey + 1, phases := [.active, .idle, .idle] }

/-- A DOM click on box `i`: the Box component installs the handler only
while its phase is active (`onClick={isActive ? onClick : undefined}`). -/
def clickBox (i : ℕ) (s : HeroState) : HeroState :=
  if s.phases.get? i = some .active then handleClick i s else s

/-- `phases.every(p => p === 'closed')`. -/
def allClosed (s : HeroState) : Bool := s.phases.all (· == .closed)

/-- `showScene={box.id === 'deploy' && allClosed}`: whether the
stick-figure vignette (vignette A) is mounted on a given box. -/
def showScene (boxId : String) (s : HeroState) : Bool :=
  (boxId == "deploy") && allClosed s

/-! ### Per-box WordParticles control state (phase lifecycle, C1)

`BoxM` abstracts one box's phase together with the `gatherFired` /
`closingFired` ref guards and the two one-shot timers scheduled by the
gathering / closing effects.  Events: a DOM click, activation by the
orchestrator (previous box closed), and the two timer firings.  The
timer firings immediately run the orchestrator handlers
(`handleGatherDone` / `handleClosingDone`), so the phase moves in the
same step and the entry effect of the next phase runs.
-/

structure BoxM where
  phase : BoxPhase
  gatherFired : Bool
  closingFired : Bool
  pendingGather : Bool
  pendingClosing : Bool
deriving DecidableEq, Fintype

inductive BEvent
  | click
  | activate
  | gatherFire
  | closingFire
deriving DecidableEq, Fintype

inductive BOut
  | gatherDone
  | closingDone
deriving DecidableEq

/-- Entry effect of the gathering phase on the guard state:
`if (!gatherFired.current) { gatherFired.current = true; setTimeout(onGatherDone, 660) }`. -/
def enterGatheringM (s : BoxM) : BoxM :=
  if s.gatherFired then s else { s with gatherFired := true, pendingGather := true }

/-- Entry effect of the closing phase on the guard state. -/
def enterClosingM (s : BoxM) : BoxM :=
  if s.closingFired then s else { s with closingFired := true, pendingClosing := true }

/-- One event of the per-box lifecycle, with the completion callbacks it
fires. -/
def bstep (s : BoxM) : BEvent → BoxM × List BOut
  | .click =>
    if s.phase = .active then (enterGatheringM { s with phase := .gathering }, []) else (s, [])
  | .activate =>
    if s.phase = .idle then
      ({ s with phase := .active, gatherFired := false, closingFired := false }, [])
    else (s, [])
  | .gatherFire =>
    if s.pendingGather then
      (enterClosingM { s with phase := .closing, pendingGather := false }, [.gatherDone])
    else (s, [])
  | .closingFire =>
    if s.pendingClosing then
      ({ s with phase := .closed, pendingClosing := false }, [.closingDone])
    else (s, [])

/-- Run a list of events, accumulating the fired callbacks. -/
def brun : BoxM → List BEvent → BoxM × List BOut
  | s, [] => (s, [])
  | s, e :: es => ((brun (bstep s e).1 es).1, (bstep s e).2 ++ (brun (bstep s e).1 es).2)

/-- Box 0 at mount: phase active, no guard fired, no timer pending. -/
def boxInit : BoxM :=
  { phase := .active, gatherFired := false, closingFired := false,
    pendingGather := false, pendingClosing := false }

/-- Position of a phase in the lifecycle order. -/
def phaseRank : BoxPhase → ℕ
  | .idle => 0
  | .active => 1
  | .gathering => 2
  | .closing => 3
  | .closed => 4

/-- Reachable-state invariant of the per-box lifecycle. -/
def boxInv (s : BoxM) : Prop :=
  (s.phase = .idle ∧ s.gatherFired = false ∧ s.closingFired = false ∧
    s.pendingGather = false ∧ s.pendingClosing = false) ∨
  (s.phase = .active ∧ s.gatherFired = false ∧ s.closingFired = false ∧
    s.pendingGather = false ∧ s.pendingClosing = false) ∨
  (s.phase = .gathering ∧ s.gatherFired = true ∧ s.closingFired = false ∧
    s.pendingGather = true ∧ s.pendingClosing = false) ∨
  (s.phase = .closing ∧ s.gatherFired = true ∧ s.closingFired = true ∧
    s.pendingGather = false ∧ s.pendingClosing = true) ∨
  (s.phase = .closed ∧ s.gatherFired = true ∧ s.closingFired = true ∧
    s.pendingGather = false ∧ s.pendingClosing = false)

instance : DecidablePred boxInv := fun s => by unfold boxInv; infer_instance

/-- Number of gather-complete callbacks already fired, read off the
guard state: the guard is set at phase entry, the callback fires when
the pending timer elapses. -/
def gPot (s : BoxM) : ℕ :=
  (if s.gatherFired then 1 else 0) - (if s.pendingGather then 1 else 0)

/-- Same for the closing-complete callback. -/
def cPot (s : BoxM) : ℕ :=
  (if s.closingFired then 1 else 0) - (if s.pendingClosing then 1 else 0)

/-! ### WordParticles effects and the freeze snapshot (C5, C8) -/

/-- The refs of one WordParticles instance. -/
structure WPState where
  particles : List Particle
  frozen : Option (List (ℝ × ℝ))
  gatherFired : Bool
  closingFired : Bool

/-- Effect on `[resetKey]` change: clear everything so particles are
recreated fresh on the next idle/active phase. -/
def effectResetKey (_w : WPState) : WPState :=
  { particles := [], frozen := none, gatherFired := false, closingFired := false }

/-- Effect on phase entry while idle or active: clear the guards and the
snapshot, lazily create particles, restart the physics loop. -/
noncomputable def effectIdleActive (words : List String) (rnd : ℕ → ℝ × ℝ × ℝ)
    (phase : BoxPhase) (w : WPState) : WPState :=
  if phase = .idle ∨ phase = .active then
    { particles := if w.particles.length = 0 then createParticles words rnd else w.particles,
      frozen := none, gatherFired := false, closingFired := false }
  else w

/-- Effect on entering gathering: stop the physics loop, snapshot the
live positions, schedule the gather-complete timer unless already fired.
The Bool reports whether a timer was scheduled. -/
noncomputable def effectGathering (phase : BoxPhase) (w : WPState) : WPState × Bool :=
  if phase = .gathering then
    ({ particles := w.particles, frozen := some (w.particles.map fun p => (p.x, p.y)),
       gatherFired := true, closingFired := w.closingFired }, !w.gatherFired)
  else (w, false)

/-- Effect on entering closing: keep the snapshot, schedule the
closing-complete timer unless already fired. -/
noncomputable def effectClosing (phase : BoxPhase) (w : WPState) : WPState × Bool :=
  if phase = .closing then
    ({ particles := w.particles, frozen := w.frozen,
       gatherFired := w.gatherFired, closingFired := true }, !w.closingFired)
  else (w, false)

/-- The base coordinates used by the render path:
`(frozen && (isGathering || isClosing)) ? frozen[p.id] : (p.x, p.y)`. -/
noncomputable def renderPos (phase : BoxPhase) (w : WPState) (p : Particle) : ℝ × ℝ :=
  match w.frozen with
  | some fr =>
    if phase = .gathering ∨ phase = .closing then (fr.get? p.id).getD (p.x, p.y)
    else (p.x, p.y)
  | none => (p.x, p.y)

/-! ### Vignette scene generation counter (StickFigureScene / DefineScene) -/

/-- One vignette scene component: `sceneKey` is the generation counter,
`pending` the completion timer (tagged with the generation that
scheduled it), `done` the unmount flag. -/
structure SceneM where
  sceneKey : ℕ
  done : Bool
  pending : Option ℕ
  active : Bool
deriving DecidableEq

inductive SEvent
  | activate
  | deactivate
  | fire (g : ℕ)
deriving DecidableEq

/-- One scene event.  Activation bumps the generation, clears `done`,
and (replacing any previously scheduled timer, whose cleanup ran)
schedules the completion timer for the new generation.  Deactivation
runs the effect cleanup, clearing the timer.  A timer firing is tagged
with the generation that created it and is a no-op unless it is the
currently scheduled one; the Bool reports whether `onDone` fired. -/
def sstep (s : SceneM) : SEvent → SceneM × Bool
  | .activate =>
    ({ sceneKey := s.sceneKey + 1, done := false,
       pending := some (s.sceneKey + 1), active := true }, false)
  | .deactivate => ({ s with pending := none, active := false }, false)
  | .fire g =>
    if s.pending = some g then
      ({ s with done := true, pending := none }, true)
    else (s, false)

def srun : SceneM → List SEvent → SceneM
  | s, [] => s
  | s, e :: es => srun (sstep s e).1 es

/-- A scene before its first activation. -/
def sceneInit : SceneM :=
  { sceneKey := 0, done := false, pending := none, active := false }

/-! ### Concrete inputs used by counterexamples and witnesses -/

/-- Random stream giving angle 0, x draw 0, y draw 1/2:
particle at (16, 80) heading right at full speed. -/
noncomputable def rndCex : ℕ → ℝ × ℝ × ℝ := fun _ => (0, 0, 1 / 2)

/-- Random stream of all zeros: particle at (16, 16) heading right. -/
noncomputable def rndW : ℕ → ℝ × ℝ × ℝ := fun _ => (0, 0, 0)

/-- A motionless particle in the interior of the physics area. -/
noncomputable def pZero : Particle :=
  { id := 0, word := "Context", x := 80, y := 80, vx := 0, vy := 0 }

/-- First particle of a coincident pair. -/
noncomputable def pCoA : Particle :=
  { id := 0, word := "Options", x := 40, y := 40, vx := 1, vy := 0 }

/-- Second particle of a coincident pair (same position as `pCoA`). -/
noncomputable def pCoB : Particle :=
  { id := 1, word := "Risk", x := 40, y := 40, vx := 2, vy := 3 }

/-- The particle `createParticles` produces from the all-zero stream. -/
noncomputable def pW : Particle :=
  { id := 0, word := "Assumptions", x := 16, y := 16, vx := SPEED, vy := 0 }

/-- A WordParticles ref state holding one particle at (20, 30). -/
noncomputable def wpEx : WPState :=
  { particles := [ { id := 0, word := "History", x := 20, y := 30, vx := SPEED, vy := 0 } ],
    frozen := none, gatherFired := false, closingFired := false }

/-! ## Helper lemmas -/

theorem SPEED_pos : (0 : ℝ) < SPEED := by norm_num [SPEED]

theorem SPEED_nonneg : (0 : ℝ) ≤ SPEED := le_of_lt SPEED_pos

theorem hypot_nonneg (a b : ℝ) : 0 ≤ hypot a b := Real.sqrt_nonneg _

theorem hypot_eq_zero_iff (a b : ℝ) : hypot a b = 0 ↔ a = 0 ∧ b = 0 := by
  unfold hypot
  rw [Real.sqrt_eq_zero (by positivity)]
  constructor
  · intro h
    constructor
    · have := sq_nonneg a
      have := sq_nonneg b
      nlinarith
    · have := sq_nonneg a
      have := sq_nonneg b
      nlinarith
  · rintro ⟨rfl, rfl⟩
    ring

theorem sq_hypot (a b : ℝ) : hypot a b ^ 2 = a ^ 2 + b ^ 2 :=
  Real.sq_sqrt (by positivity)

theorem hypot_scale {c : ℝ} (hc : 0 ≤ c) (a b : ℝ) :
    hypot (c * a) (c * b) = c * hypot a b := by
  unfold hypot
  rw [show (c * a) ^ 2 + (c * b) ^ 2 = c ^ 2 * (a ^ 2 + b ^ 2) by ring,
    Real.sqrt_mul (sq_nonneg c), Real.sqrt_sq hc]

theorem abs_le_hypot_left (a b : ℝ) : |a| ≤ hypot a b := by
  rw [← Real.sqrt_sq_eq_abs]
  exact Real.sqrt_le_sqrt (by nlinarith [sq_nonneg b])

theorem abs_le_hypot_right (a b : ℝ) : |b| ≤ hypot a b := by
  rw [← Real.sqrt_sq_eq_abs]
  exact Real.sqrt_le_sqrt (by nlinarith [sq_nonneg a])

theorem hypot_abs_left (a : ℝ) : hypot a 0 = |a| := by
  unfold hypot
  rw [show a ^ 2 + (0 : ℝ) ^ 2 = a ^ 2 by ring, Real.sqrt_sq_eq_abs]

/-! ### renorm -/

theorem renorm_pos (p : Particle) : (renorm p).x = p.x ∧ (renorm p).y = p.y := by
  simp only [renorm]
  split <;> exact ⟨rfl, rfl⟩

theorem renorm_speed (p : Particle) :
    hypot (renorm p).vx (renorm p).vy = SPEED ∨ ((renorm p).vx = 0 ∧ (renorm p).vy = 0) := by
  simp only [renorm]
  by_cases h : 0 < hypot p.vx p.vy
  · left
    rw [if_pos h]
    have hne : hypot p.vx p.vy ≠ 0 := ne_of_gt h
    have h1 : p.vx / hypot p.vx p.vy * SPEED = SPEED / hypot p.vx p.vy * p.vx := by ring
    have h2 : p.vy / hypot p.vx p.vy * SPEED = SPEED / hypot p.vx p.vy * p.vy := by ring
    show hypot (p.vx / hypot p.vx p.vy * SPEED) (p.vy / hypot p.vx p.vy * SPEED) = SPEED
    rw [h1, h2, hypot_scale (div_nonneg SPEED_nonneg (le_of_lt h)), div_mul_cancel₀ _ hne]
  · right
    rw [if_neg h]
    have h0 : hypot p.vx p.vy = 0 :=
      le_antisymm (not_lt.mp h) (hypot_nonneg _ _)
    exact (hypot_eq_zero_iff _ _).mp h0

theorem renorm_vel_le (p : Particle) :
    |(renorm p).vx| ≤ SPEED ∧ |(renorm p).vy| ≤ SPEED := by
  rcases renorm_speed p with h | ⟨h1, h2⟩
  · exact ⟨h ▸ abs_le_hypot_left _ _, h ▸ abs_le_hypot_right _ _⟩
  · rw [h1, h2, abs_zero]
    exact ⟨SPEED_nonneg, SPEED_nonneg⟩

theorem renorm_zero (p : Particle) (h1 : p.vx = 0) (h2 : p.vy = 0) : renorm p = p := by
  have h0 : hypot (0 : ℝ) 0 = 0 := (hypot_eq_zero_iff 0 0).mpr ⟨rfl, rfl⟩
  simp only [renorm, h1, h2, h0, lt_irrefl, if_false]

/-! ### wallStep -/

theorem wallStep_bounds (p : Particle) :
    0 ≤ (wallStep p).x ∧ (wallStep p).x ≤ BOUND_W ∧
    0 ≤ (wallStep p).y ∧ (wallStep p).y ≤ BOUNCE_H := by
  have hW : (0 : ℝ) < BOUND_W := by norm_num [BOUND_W]
  have hH : (0 : ℝ) < BOUNCE_H := by norm_num [BOUNCE_H]
  simp only [wallStep]
  split_ifs <;> (try simp_all) <;> and_intros <;> linarith

theorem wallStep_clamp_left (p : Particle) (h : p.x ≤ 0) :
    (wallStep p).x = 0 ∧ 0 ≤ (wallStep p).vx := by
  have hW : (0 : ℝ) < BOUND_W := by norm_num [BOUND_W]
  simp only [wallStep]
  split_ifs <;> (try simp_all) <;> and_intros <;> linarith [abs_nonneg p.vx]

theorem wallStep_clamp_right (p : Particle) (h : BOUND_W ≤ p.x) :
    (wallStep p).x = BOUND_W ∧ (wallStep p).vx ≤ 0 := by
  have hW : (0 : ℝ) < BOUND_W := by norm_num [BOUND_W]
  simp only [wallStep]
  split_ifs <;> (try simp_all) <;> and_intros <;> linarith [abs_nonneg p.vx]

theorem wallStep_clamp_bottom (p : Particle) (h : p.y ≤ 0) :
    (wallStep p).y = 0 ∧ 0 ≤ (wallStep p).vy := by
  have hH : (0 : ℝ) < BOUNCE_H := by norm_num [BOUNCE_H]
  simp only [wallStep]
  split_ifs <;> (try simp_all) <;> and_intros <;> linarith [abs_nonneg p.vy]

theorem wallStep_clamp_top (p : Particle) (h : BOUNCE_H ≤ p.y) :
    (wallStep p).y = BOUNCE_H ∧ (wallStep p).vy ≤ 0 := by
  have hH : (0 : ℝ) < BOUNCE_H := by norm_num [BOUNCE_H]
  simp only [wallStep]
  split_ifs <;> (try simp_all) <;> and_intros <;> linarith [abs_nonneg p.vy]

theorem wallStep_interior (p : Particle) (hx0 : 0 < p.x) (hx1 : p.x < BOUND_W)
    (hy0 : 0 < p.y) (hy1 : p.y < BOUNCE_H) : wallStep p = p := by
  simp only [wallStep]
  rw [if_neg (show ¬p.x ≤ 0 by push_neg; exact hx0)]
  rw [if_neg (show ¬BOUND_W ≤ p.x by push_neg; exact hx1)]
  rw [if_neg (show ¬p.y ≤ 0 by push_neg; exact hy0)]
  rw [if_neg (show ¬BOUNCE_H ≤ p.y by push_neg; exact hy1)]

/-! ### repulse and repulseAll -/

theorem repulse_pos (p q : Particle) :
    (repulse p q).1.x = p.x ∧ (repulse p q).1.y = p.y ∧
    (repulse p q).2.x = q.x ∧ (repulse p q).2.y = q.y := by
  simp only [repulse]
  split <;> exact ⟨rfl, rfl, rfl, rfl⟩

theorem repulseAll_fst_pos (qs : List Particle) :
    ∀ p : Particle, (repulseAll p qs).1.x = p.x ∧ (repulseAll p qs).1.y = p.y := by
  induction qs with
  | nil => exact fun p => ⟨rfl, rfl⟩
  | cons q rest ih =>
    intro p
    have h := repulse_pos p q
    have h2 := ih (repulse p q).1
    simp only [repulseAll]
    exact ⟨h2.1.trans h.1, h2.2.trans h.2.1⟩

theorem repulseAll_snd_length (qs : List Particle) :
    ∀ p : Particle, (repulseAll p qs).2.length = qs.length := by
  induction qs with
  | nil => exact fun _ => rfl
  | cons q rest ih =>
    intro p
    simp [repulseAll, ih]

theorem integrate_fields (p : Particle) :
    (integrate p).x = p.x + p.vx ∧ (integrate p).y = p.y + p.vy ∧
    (integrate p).vx = p.vx ∧ (integrate p).vy = p.vy :=
  ⟨rfl, rfl, rfl, rfl⟩

/-! ### animate equations and frame invariants -/

theorem animate_nil : animate [] = [] := by
  simp [animate]

theorem animate_cons (p : Particle) (rest : List Particle) :
    animate (p :: rest) =
      integrate (renorm (repulseAll (wallStep p) rest).1) ::
        animate (repulseAll (wallStep p) rest).2 := by
  simp [animate]

/-- After any single frame, every particle is within one SPEED unit of
the physics area on each axis: the wall clamp restores `[0, W] × [0, H]`
and integration moves each coordinate by at most `SPEED`. -/
theorem animate_mem_bounds :
    ∀ (n : ℕ) (ps : List Particle), ps.length ≤ n → ∀ p' ∈ animate ps,
      -SPEED ≤ p'.x ∧ p'.x ≤ BOUND_W + SPEED ∧ -SPEED ≤ p'.y ∧ p'.y ≤ BOUNCE_H + SPEED := by
  intro n
  induction n with
  | zero =>
    intro ps hps p' hp'
    rw [List.length_eq_zero.mp (Nat.le_zero.mp hps), animate_nil] at hp'
    exact absurd hp' (List.not_mem_nil p')
  | succ n ih =>
    intro ps hps p' hp'
    match ps with
    | [] =>
      rw [animate_nil] at hp'
      exact absurd hp' (List.not_mem_nil p')
    | p :: rest =>
      rw [animate_cons] at hp'
      rcases List.mem_cons.mp hp' with rfl | hmem
      · have hw := wallStep_bounds p
        have hpos := repulseAll_fst_pos rest (wallStep p)
        have hrp := renorm_pos (repulseAll (wallStep p) rest).1
        have hrv := renorm_vel_le (repulseAll (wallStep p) rest).1
        have hint := integrate_fields (renorm (repulseAll (wallStep p) rest).1)
        have hax : |(renorm (repulseAll (wallStep p) rest).1).vx| ≤ SPEED := hrv.1
        have hay : |(renorm (repulseAll (wallStep p) rest).1).vy| ≤ SPEED := hrv.2
        rw [abs_le] at hax hay
        have hx : (renorm (repulseAll (wallStep p) rest).1).x = (wallStep p).x :=
          hrp.1.trans hpos.1
        have hy : (renorm (repulseAll (wallStep p) rest).1).y = (wallStep p).y :=
          hrp.2.trans hpos.2
        rw [hint.1, hint.2.1] at *
        constructor
        · rw [hx]; linarith [hw.1, hax.1]
        constructor
        · rw [hx]; linarith [hw.2.1, hax.2]
        constructor
        · rw [hy]; linarith [hw.2.2.1, hay.1]
        · rw [hy]; linarith [hw.2.2.2, hay.2]
      · refine ih (repulseAll (wallStep p) rest).2 ?_ p' hmem
        rw [repulseAll_snd_length]
        simp only [List.length_cons] at hps
        omega

/-- After any single frame, every particle either moves at exactly
`SPEED` or has exactly zero velocity. -/
theorem animate_mem_speed :
    ∀ (n : ℕ) (ps : List Particle), ps.length ≤ n → ∀ p' ∈ animate ps,
      hypot p'.vx p'.vy = SPEED ∨ (p'.vx = 0 ∧ p'.vy = 0) := by
  intro n
  induction n with
  | zero =>
    intro ps hps p' hp'
    rw [List.length_eq_zero.mp (Nat.le_zero.mp hps), animate_nil] at hp'
    exact absurd hp' (List.not_mem_nil p')
  | succ n ih =>
    intro ps hps p' hp'
    match ps with
    | [] =>
      rw [animate_nil] at hp'
      exact absurd hp' (List.not_mem_nil p')
    | p :: rest =>
      rw [animate_cons] at hp'
      rcases List.mem_cons.mp hp' with rfl | hmem
      · have hint := integrate_fields (renorm (repulseAll (wallStep p) rest).1)
        rw [hint.2.2.1, hint.2.2.2]
        exact renorm_speed (repulseAll (wallStep p) rest).1
      · refine ih (repulseAll (wallStep p) rest).2 ?_ p' hmem
        rw [repulseAll_snd_length]
        simp only [List.length_cons] at hps
        omega

/-! ### createParticles -/

theorem rand_bounds {min max r : ℝ} (h0 : 0 ≤ r) (h1 : r < 1) (hmm : min ≤ max) :
    min ≤ rand min max r ∧ rand min max r ≤ max := by
  unfold rand
  constructor <;> nlinarith

theorem mkParticle_bounds (i : ℕ) (word : String) (r : ℝ × ℝ × ℝ)
    (hx0 : 0 ≤ r.2.1) (hx1 : r.2.1 < 1) (hy0 : 0 ≤ r.2.2) (hy1 : r.2.2 < 1) :
    16 ≤ (mkParticle i word r).x ∧ (mkParticle i word r).x ≤ BOUND_W - 16 ∧
    16 ≤ (mkParticle i word r).y ∧ (mkParticle i word r).y ≤ BOUNCE_H - 16 := by
  have hW : (16 : ℝ) ≤ BOUND_W - 16 := by norm_num [BOUND_W]
  have hH : (16 : ℝ) ≤ BOUNCE_H - 16 := by norm_num [BOUNCE_H]
  have h1 := rand_bounds hx0 hx1 hW
  have h2 := rand_bounds hy0 hy1 hH
  exact ⟨h1.1, h1.2, h2.1, h2.2⟩

theorem mkParticle_speed (i : ℕ) (word : String) (r : ℝ × ℝ × ℝ) :
    hypot (mkParticle i word r).vx (mkParticle i word r).vy = SPEED := by
  show hypot (Real.cos (rand 0 (2 * Real.pi) r.1) * SPEED)
    (Real.sin (rand 0 (2 * Real.pi) r.1) * SPEED) = SPEED
  unfold hypot
  rw [show (Real.cos (rand 0 (2 * Real.pi) r.1) * SPEED) ^ 2 +
        (Real.sin (rand 0 (2 * Real.pi) r.1) * SPEED) ^ 2 = SPEED ^ 2 by
      nlinarith [Real.sin_sq_add_cos_sq (rand 0 (2 * Real.pi) r.1)]]
  exact Real.sqrt_sq SPEED_nonneg

theorem createParticlesAux_mem (rnd : ℕ → ℝ × ℝ × ℝ) :
    ∀ (ws : List String) (i : ℕ) (p : Particle), p ∈ createParticlesAux rnd i ws →
      ∃ j w, p = mkParticle j w (rnd j) := by
  intro ws
  induction ws with
  | nil => intro i p hp; exact absurd hp (List.not_mem_nil p)
  | cons w rest ih =>
    intro i p hp
    rcases List.mem_cons.mp hp with rfl | hmem
    · exact ⟨i, w, rfl⟩
    · exact ih (i + 1) p hmem

/-- Every particle of a fresh `createParticles` batch sits in the
interior margin and moves at exactly `SPEED`. -/
theorem createParticles_mem (words : List String) (rnd : ℕ → ℝ × ℝ × ℝ)
    (hv : validRnd rnd) :
    ∀ p ∈ createParticles words rnd,
      16 ≤ p.x ∧ p.x ≤ BOUND_W - 16 ∧ 16 ≤ p.y ∧ p.y ≤ BOUNCE_H - 16 ∧
        hypot p.vx p.vy = SPEED := by
  intro p hp
  obtain ⟨j, w, rfl⟩ := createParticlesAux_mem rnd words 0 p hp
  obtain ⟨_, _, h1, h2, h3, h4⟩ := hv j
  have hb := mkParticle_bounds j w (rnd j) h1 h2 h3 h4
  exact ⟨hb.1, hb.2.1, hb.2.2.1, hb.2.2.2, mkParticle_speed j w (rnd j)⟩

/-- Particle ids are the render-order indices. -/
theorem createParticlesAux_get (rnd : ℕ → ℝ × ℝ × ℝ) :
    ∀ (ws : List String) (i k : ℕ), k < ws.length →
      ((createParticlesAux rnd i ws).get? k).map Particle.id = some (i + k) := by
  intro ws
  induction ws with
  | nil => intro i k hk; exact absurd hk (Nat.not_lt_zero k)
  | cons w rest ih =>
    intro i k hk
    match k with
    | 0 => simp [createParticlesAux, mkParticle]
    | k + 1 =>
      have := ih (i + 1) k (by simpa using Nat.lt_of_succ_lt_succ hk)
      simp only [createParticlesAux, List.get?_cons_succ]
      rw [this]
      congr 1
      omega

/-! ### The concrete overshoot trajectory (C2) -/

theorem renorm_horizontal (p : Particle) (h1 : p.vx = SPEED) (h2 : p.vy = 0) :
    renorm p = p := by
  have hs : hypot p.vx p.vy = SPEED := by
    rw [h1, h2, hypot_abs_left, abs_of_nonneg SPEED_nonneg]
  simp only [renorm, hs, SPEED_pos, if_true, if_pos SPEED_pos]
  have hne : SPEED ≠ 0 := ne_of_gt SPEED_pos
  have : p.vx / SPEED * SPEED = p.vx := by field_simp
  have hvy : p.vy / SPEED * SPEED = p.vy := by field_simp
  cases p
  simp_all

theorem animate_singleton (p : Particle) :
    animate [p] = [integrate (renorm (wallStep p))] := by
  rw [animate_cons]
  simp [repulseAll, animate_nil]

/-- One frame of the counterexample run: a lone rightward particle in
the interior just advances by `SPEED`. -/
theorem cex_step (x : ℝ) (h0 : 0 < x) (h1 : x < BOUND_W) :
    animate [{ id := 0, word := "Assumptions", x := x, y := 80, vx := SPEED, vy := 0 }] =
      [{ id := 0, word := "Assumptions", x := x + SPEED, y := 80, vx := SPEED, vy := 0 }] := by
  rw [animate_singleton]
  rw [wallStep_interior _ h0 h1 (by norm_num) (by norm_num [BOUNCE_H])]
  rw [renorm_horizontal _ rfl rfl]
  simp [integrate]

/-- The whole counterexample run in closed form, while it stays interior. -/
theorem cex_iter : ∀ k : ℕ, k ≤ 412 →
    animate^[k] [{ id := 0, word := "Assumptions", x := 16, y := 80, vx := SPEED, vy := 0 }] =
      [{ id := 0, word := "Assumptions", x := 16 + SPEED * k, y := 80, vx := SPEED, vy := 0 }] := by
  intro k
  induction k with
  | zero => intro _; simp
  | succ k ih =>
    intro hk
    have hk' : (k : ℝ) ≤ 411 := by
      have : k ≤ 411 := by omega
      exact_mod_cast this
    rw [Function.iterate_succ_apply', ih (by omega)]
    rw [cex_step (16 + SPEED * k) (by norm_num [SPEED]; positivity)
      (by norm_num [SPEED, BOUND_W]; nlinarith)]
    have hx : (16 : ℝ) + SPEED * k + SPEED = 16 + SPEED * ((k : ℕ) + 1 : ℕ) := by
      push_cast
      ring
    rw [hx]

/-! ### Concrete createParticles evaluations -/

theorem validRnd_rndCex : validRnd rndCex := by
  intro i
  norm_num [rndCex]

theorem validRnd_rndW : validRnd rndW := by
  intro i
  norm_num [rndW]

theorem createParticles_rndCex :
    createParticles [ "Assumptions" ] rndCex =
      [{ id := 0, word := "Assumptions", x := 16, y := 80, vx := SPEED, vy := 0 }] := by
  simp only [createParticles, createParticlesAux, mkParticle, rndCex, rand]
  norm_num [Real.cos_zero, Real.sin_zero, BOUND_W, BOUNCE_H]

theorem createParticles_rndW :
    createParticles [ "Assumptions" ] rndW = [pW] := by
  simp only [createParticles, createParticlesAux, mkParticle, rndW, rand, pW]
  norm_num [Real.cos_zero, Real.sin_zero, BOUND_W, BOUNCE_H]

/-! ### List get?/set helpers -/

theorem list_get?_some_lt {α : Type} :
    ∀ (l : List α) (i : ℕ) (a : α), l.get? i = some a → i < l.length := by
  intro l
  induction l with
  | nil => intro i a h; simp [List.get?] at h
  | cons x xs ih =>
    intro i a h
    match i with
    | 0 => simp
    | i + 1 =>
      simp only [List.get?_cons_succ] at h
      have := ih i a h
      simp only [List.length_cons]
      omega

theorem list_get?_set_self {α : Type} :
    ∀ (l : List α) (i : ℕ) (a : α), i < l.length → (l.set i a).get? i = some a := by
  intro l
  induction l with
  | nil => intro i a h; simp at h
  | cons x xs ih =>
    intro i a h
    match i with
    | 0 => rfl
    | i + 1 =>
      simp only [List.set_cons_succ, List.get?_cons_succ]
      refine ih i a ?_
      simp only [List.length_cons] at h
      omega

theorem list_get?_set_ne {α : Type} :
    ∀ (l : List α) (i j : ℕ) (a : α), j ≠ i → (l.set i a).get? j = l.get? j := by
  intro l
  induction l with
  | nil => intro i j a _; simp
  | cons x xs ih =>
    intro i j a hne
    match i, j with
    | 0, 0 => exact absurd rfl hne
    | 0, j + 1 => rfl
    | i + 1, 0 => rfl
    | i + 1, j + 1 =>
      simp only [List.set_cons_succ, List.get?_cons_succ]
      exact ih i j a (fun h => hne (by rw [h]))

/-! ### Per-box lifecycle invariant (finite-state, settled by decide) -/

theorem bstep_inv : ∀ (s : BoxM) (e : BEvent), boxInv s → boxInv (bstep s e).1 := by decide

theorem bstep_count : ∀ (s : BoxM) (e : BEvent), boxInv s →
    (bstep s e).2.count BOut.gatherDone + gPot s = gPot (bstep s e).1 ∧
    (bstep s e).2.count BOut.closingDone + cPot s = cPot (bstep s e).1 := by decide

theorem bstep_rank : ∀ (s : BoxM) (e : BEvent), boxInv s →
    (bstep s e).1.phase = s.phase ∨ phaseRank (bstep s e).1.phase = phaseRank s.phase + 1 := by
  decide

theorem brun_inv_count : ∀ (evs : List BEvent) (s : BoxM), boxInv s →
    boxInv (brun s evs).1 ∧
    (brun s evs).2.count BOut.gatherDone + gPot s = gPot (brun s evs).1 ∧
    (brun s evs).2.count BOut.closingDone + cPot s = cPot (brun s evs).1 := by
  intro evs
  induction evs with
  | nil =>
    intro s h
    exact ⟨h, by simp [brun], by simp [brun]⟩
  | cons e es ih =>
    intro s h
    have h1 := bstep_inv s e h
    have h2 := bstep_count s e h
    have h3 := ih (bstep s e).1 h1
    obtain ⟨h2a, h2b⟩ := h2
    obtain ⟨h3a, h3b, h3c⟩ := h3
    refine ⟨h3a, ?_, ?_⟩ <;> simp only [brun, List.count_append] <;> omega

/-! ### Scene generation invariant -/

theorem srun_pending : ∀ (evs : List SEvent) (s : SceneM),
    (∀ g, s.pending = some g → g = s.sceneKey) →
    ∀ g, (srun s evs).pending = some g → g = (srun s evs).sceneKey := by
  intro evs
  induction evs with
  | nil => intro s h; exact h
  | cons e es ih =>
    intro s h
    refine ih (sstep s e).1 ?_
    intro g hg
    match e with
    | .activate =>
      simp only [sstep] at hg ⊢
      simpa using hg.symm
    | .deactivate =>
      simp [sstep] at hg
    | .fire g' =>
      by_cases hc : s.pending = some g'
      · simp [sstep, hc] at hg
      · simp only [sstep, if_neg hc] at hg ⊢
        exact h g hg

/-! ## Claim theorems -/

/-- C2, counterexample: from a legitimate `createParticles` batch (one
word, angle draw 0, start position (16, 80), heading right at `SPEED`),
after 412 frames the rendered x-position is 160.2, strictly beyond
`BOUND_W = 160`.  The wall clamp runs before integration, so the claimed
invariant `0 ≤ x ≤ W` fails at an observable frame. -/
theorem C2_counterexample :
    validRnd rndCex ∧
    animate^[412] (createParticles [ "Assumptions" ] rndCex) =
      [{ id := 0, word := "Assumptions", x := 160.2, y := 80, vx := SPEED, vy := 0 }] ∧
    BOUND_W < (160.2 : ℝ) := by
  refine ⟨validRnd_rndCex, ?_, by norm_num [BOUND_W]⟩
  rw [createParticles_rndCex, cex_iter 412 (le_refl _)]
  norm_num [SPEED]

/-- C2, amended: the per-axis wall clamp forces the position into
`[0, W] × [0, H]` with the velocity component made non-negative at the
low wall and non-positive at the high wall; because the clamp runs
before integration, the invariant that holds at every observable frame
is the weaker `-SPEED ≤ x ≤ W + SPEED` and `-SPEED ≤ y ≤ H + SPEED`. -/
theorem C2_wall_clamp :
    (∀ p : Particle, 0 ≤ (wallStep p).x ∧ (wallStep p).x ≤ BOUND_W ∧
      0 ≤ (wallStep p).y ∧ (wallStep p).y ≤ BOUNCE_H) ∧
    (∀ p : Particle, p.x ≤ 0 → (wallStep p).x = 0 ∧ 0 ≤ (wallStep p).vx) ∧
    (∀ p : Particle, BOUND_W ≤ p.x → (wallStep p).x = BOUND_W ∧ (wallStep p).vx ≤ 0) ∧
    (∀ p : Particle, p.y ≤ 0 → (wallStep p).y = 0 ∧ 0 ≤ (wallStep p).vy) ∧
    (∀ p : Particle, BOUNCE_H ≤ p.y → (wallStep p).y = BOUNCE_H ∧ (wallStep p).vy ≤ 0) ∧
    (∀ ps : List Particle, ∀ p' ∈ animate ps,
      -SPEED ≤ p'.x ∧ p'.x ≤ BOUND_W + SPEED ∧ -SPEED ≤ p'.y ∧ p'.y ≤ BOUNCE_H + SPEED) :=
  ⟨wallStep_bounds, wallStep_clamp_left, wallStep_clamp_right, wallStep_clamp_bottom,
    wallStep_clamp_top, fun ps => animate_mem_bounds ps.length ps (le_refl _)⟩

/-- Witness for the amended C2: a particle that crossed the left wall is
clamped to 0 with its horizontal velocity forced non-negative. -/
theorem C2_wall_clamp_witness :
    (wallStep { id := 0, word := "Problem", x := -5, y := 80, vx := -2, vy := 1 }).x = 0 ∧
    0 ≤ (wallStep { id := 0, word := "Problem", x := -5, y := 80, vx := -2, vy := 1 }).vx :=
  C2_wall_clamp.2.1 _ (by norm_num)

/-- C3: at the end of every frame each particle either moves at exactly
`SPEED` or has exactly zero velocity, even though repulsion impulses are
applied between the wall check and renormalization; a particle whose
velocity is exactly zero at the renormalization step is left untouched
(no division by zero). -/
theorem C3_renormalization :
    (∀ ps : List Particle, ∀ p' ∈ animate ps,
      hypot p'.vx p'.vy = SPEED ∨ (p'.vx = 0 ∧ p'.vy = 0)) ∧
    (∀ p : Particle, p.vx = 0 → p.vy = 0 → renorm p = p) :=
  ⟨fun ps => animate_mem_speed ps.length ps (le_refl _), renorm_zero⟩

/-- Witness for C3: the motionless particle passes one frame unchanged
and lands in the zero-velocity disjunct. -/
theorem C3_witness :
    hypot pZero.vx pZero.vy = SPEED ∨ (pZero.vx = 0 ∧ pZero.vy = 0) := by
  have hmem : pZero ∈ animate [pZero] := by
    rw [animate_singleton]
    rw [wallStep_interior pZero (by norm_num [pZero]) (by norm_num [pZero, BOUND_W])
      (by norm_num [pZero]) (by norm_num [pZero, BOUNCE_H])]
    rw [renorm_zero pZero rfl rfl]
    have h : integrate pZero = pZero := by
      simp [integrate, pZero]
    rw [h]
    exact List.mem_singleton_self pZero
  exact C3_renormalization.1 [pZero] pZero hmem

/-- C6: for a pair at distance `d`, if `d = 0` or `d ≥ REP_DIST` the
pair is untouched; if `0 < d < REP_DIST` an impulse of magnitude
`((REP_DIST − d)/REP_DIST)·REP_FORCE` is applied to `p` along the
normalized `p − q` direction and the exact opposite impulse to `q`. -/
theorem C6_pairwise_repulsion (p q : Particle) (d f : ℝ)
    (hd : d = hypot (p.x - q.x) (p.y - q.y))
    (hf : f = (REP_DIST - d) / REP_DIST * REP_FORCE) :
    (d = 0 ∨ REP_DIST ≤ d → repulse p q = (p, q)) ∧
    (0 < d → d < REP_DIST →
      (repulse p q).1.vx = p.vx + (p.x - q.x) / d * f ∧
      (repulse p q).1.vy = p.vy + (p.y - q.y) / d * f ∧
      (repulse p q).2.vx = q.vx - (p.x - q.x) / d * f ∧
      (repulse p q).2.vy = q.vy - (p.y - q.y) / d * f ∧
      hypot ((repulse p q).1.vx - p.vx) ((repulse p q).1.vy - p.vy) = f ∧
      (repulse p q).2.vx - q.vx = -((repulse p q).1.vx - p.vx) ∧
      (repulse p q).2.vy - q.vy = -((repulse p q).1.vy - p.vy)) := by
  subst hd
  subst hf
  constructor
  · intro h
    have hnc : ¬(hypot (p.x - q.x) (p.y - q.y) < REP_DIST ∧
        0 < hypot (p.x - q.x) (p.y - q.y)) := by
      rcases h with h | h
      · exact fun hc => absurd (h ▸ hc.2) (lt_irrefl 0)
      · exact fun hc => absurd hc.1 (not_lt.mpr h)
    simp only [repulse, if_neg hnc]
  · intro h0 h1
    have hc : hypot (p.x - q.x) (p.y - q.y) < REP_DIST ∧
        0 < hypot (p.x - q.x) (p.y - q.y) := ⟨h1, h0⟩
    have hd0 : hypot (p.x - q.x) (p.y - q.y) ≠ 0 := ne_of_gt h0
    have hR : (0 : ℝ) < REP_DIST := by norm_num [REP_DIST]
    have hF : (0 : ℝ) ≤ REP_FORCE := by norm_num [REP_FORCE]
    have hfpos : 0 ≤ (REP_DIST - hypot (p.x - q.x) (p.y - q.y)) / REP_DIST * REP_FORCE :=
      mul_nonneg (div_nonneg (by linarith) hR.le) hF
    have e1 : (repulse p q).1.vx = p.vx + (p.x - q.x) / hypot (p.x - q.x) (p.y - q.y) *
        ((REP_DIST - hypot (p.x - q.x) (p.y - q.y)) / REP_DIST * REP_FORCE) := by
      simp only [repulse, if_pos hc]
    have e2 : (repulse p q).1.vy = p.vy + (p.y - q.y) / hypot (p.x - q.x) (p.y - q.y) *
        ((REP_DIST - hypot (p.x - q.x) (p.y - q.y)) / REP_DIST * REP_FORCE) := by
      simp only [repulse, if_pos hc]
    have e3 : (repulse p q).2.vx = q.vx - (p.x - q.x) / hypot (p.x - q.x) (p.y - q.y) *
        ((REP_DIST - hypot (p.x - q.x) (p.y - q.y)) / REP_DIST * REP_FORCE) := by
      simp only [repulse, if_pos hc]
    have e4 : (repulse p q).2.vy = q.vy - (p.y - q.y) / hypot (p.x - q.x) (p.y - q.y) *
        ((REP_DIST - hypot (p.x - q.x) (p.y - q.y)) / REP_DIST * REP_FORCE) := by
      simp only [repulse, if_pos hc]
    have e5 : hypot ((repulse p q).1.vx - p.vx) ((repulse p q).1.vy - p.vy) =
        (REP_DIST - hypot (p.x - q.x) (p.y - q.y)) / REP_DIST * REP_FORCE := by
      rw [e1, e2]
      simp only [add_sub_cancel_left]
      rw [show (p.x - q.x) / hypot (p.x - q.x) (p.y - q.y) *
            ((REP_DIST - hypot (p.x - q.x) (p.y - q.y)) / REP_DIST * REP_FORCE) =
          (REP_DIST - hypot (p.x - q.x) (p.y - q.y)) / REP_DIST * REP_FORCE /
            hypot (p.x - q.x) (p.y - q.y) * (p.x - q.x) by ring,
        show (p.y - q.y) / hypot (p.x - q.x) (p.y - q.y) *
            ((REP_DIST - hypot (p.x - q.x) (p.y - q.y)) / REP_DIST * REP_FORCE) =
          (REP_DIST - hypot (p.x - q.x) (p.y - q.y)) / REP_DIST * REP_FORCE /
            hypot (p.x - q.x) (p.y - q.y) * (p.y - q.y) by ring,
        hypot_scale (div_nonneg hfpos h0.le), div_mul_cancel₀ _ hd0]
    have e6 : (repulse p q).2.vx - q.vx = -((repulse p q).1.vx - p.vx) := by
      rw [e1, e3]
      ring
    have e7 : (repulse p q).2.vy - q.vy = -((repulse p q).1.vy - p.vy) := by
      rw [e2, e4]
      ring
    exact ⟨e1, e2, e3, e4, e5, e6, e7⟩

/-- Witness for C6: a coincident pair (distance exactly 0) is left
untouched by the repulsion step. -/
theorem C6_witness : repulse pCoA pCoB = (pCoA, pCoB) := by
  have hd : hypot (pCoA.x - pCoB.x) (pCoA.y - pCoB.y) = 0 := by
    norm_num [pCoA, pCoB, hypot]
  exact (C6_pairwise_repulsion pCoA pCoB _ _ rfl rfl).1 (Or.inl hd)

/-- C10: every particle of a fresh `createParticles` batch starts in
`[16, W−16] × [16, H−16]` at speed exactly `SPEED`, and after any number
of frames each coordinate stays within `[-SPEED, bound + SPEED]`: the
clamp-before-integration order lets a particle overshoot a wall by at
most one `SPEED` unit before the next frame clamps it back. -/
theorem C10_overshoot_bound (words : List String) (rnd : ℕ → ℝ × ℝ × ℝ)
    (hv : validRnd rnd) :
    (∀ p ∈ createParticles words rnd,
      16 ≤ p.x ∧ p.x ≤ BOUND_W - 16 ∧ 16 ≤ p.y ∧ p.y ≤ BOUNCE_H - 16 ∧
        hypot p.vx p.vy = SPEED) ∧
    (∀ (n : ℕ), ∀ p' ∈ animate^[n] (createParticles words rnd),
      -SPEED ≤ p'.x ∧ p'.x ≤ BOUND_W + SPEED ∧ -SPEED ≤ p'.y ∧ p'.y ≤ BOUNCE_H + SPEED) := by
  refine ⟨createParticles_mem words rnd hv, ?_⟩
  intro n
  match n with
  | 0 =>
    intro p' hp'
    obtain ⟨h1, h2, h3, h4, _⟩ := createParticles_mem words rnd hv p' (by simpa using hp')
    have hs := SPEED_pos
    exact ⟨by linarith, by linarith, by linarith, by linarith⟩
  | n + 1 =>
    intro p' hp'
    rw [Function.iterate_succ_apply'] at hp'
    exact animate_mem_bounds _ _ (le_refl _) p' hp'

/-- Witness for C10: the particle created from the all-zero random
stream sits at (16, 16) and moves at exactly `SPEED`. -/
theorem C10_witness :
    16 ≤ pW.x ∧ pW.x ≤ BOUND_W - 16 ∧ 16 ≤ pW.y ∧ pW.y ≤ BOUNCE_H - 16 ∧
      hypot pW.vx pW.vy = SPEED :=
  (C10_overshoot_bound [ "Assumptions" ] rndW validRnd_rndW).1 pW
    (by rw [createParticles_rndW]; exact List.mem_singleton_self pW)

/-- C1: along every event run of a box from its mount state the
lifecycle invariant holds; the completion callbacks fired so far are
exactly accounted for by the once-guards (at most one each, and exactly
one each by the time the box is closed); and every step either keeps the
phase or advances it by exactly one position in
`idle → active → gathering → closing → closed` (no skip, no repeat). -/
theorem C1_box_lifecycle (evs : List BEvent) :
    boxInv (brun boxInit evs).1 ∧
    (brun boxInit evs).2.count BOut.gatherDone =
      (if (brun boxInit evs).1.gatherFired then 1 else 0) -
        (if (brun boxInit evs).1.pendingGather then 1 else 0) ∧
    (brun boxInit evs).2.count BOut.closingDone =
      (if (brun boxInit evs).1.closingFired then 1 else 0) -
        (if (brun boxInit evs).1.pendingClosing then 1 else 0) ∧
    (∀ e, (bstep (brun boxInit evs).1 e).1.phase = (brun boxInit evs).1.phase ∨
      phaseRank (bstep (brun boxInit evs).1 e).1.phase =
        phaseRank (brun boxInit evs).1.phase + 1) ∧
    ((brun boxInit evs).1.phase = .closed →
      (brun boxInit evs).2.count BOut.gatherDone = 1 ∧
      (brun boxInit evs).2.count BOut.closingDone = 1) := by
  have h0 : boxInv boxInit := by decide
  obtain ⟨h1, h2, h3⟩ := brun_inv_count evs boxInit h0
  have hg0 : gPot boxInit = 0 := rfl
  have hc0 : cPot boxInit = 0 := rfl
  rw [hg0] at h2
  rw [hc0] at h3
  refine ⟨h1, ?_, ?_, fun e => bstep_rank _ e h1, ?_⟩
  · show (brun boxInit evs).2.count BOut.gatherDone = gPot (brun boxInit evs).1
    omega
  · show (brun boxInit evs).2.count BOut.closingDone = cPot (brun boxInit evs).1
    omega
  · intro hcl
    rcases h1 with ⟨hp, _⟩ | ⟨hp, _⟩ | ⟨hp, _⟩ | ⟨hp, _⟩ | ⟨hp, hg, hc, hpg, hpc⟩
    · rw [hp] at hcl; simp at hcl
    · rw [hp] at hcl; simp at hcl
    · rw [hp] at hcl; simp at hcl
    · rw [hp] at hcl; simp at hcl
    · have hgp : gPot (brun boxInit evs).1 = 1 := by simp [gPot, hg, hpg]
      have hcp : cPot (brun boxInit evs).1 = 1 := by simp [cPot, hc, hpc]
      omega

/-- Witness for C1: the canonical click/gather/closing run ends closed
with each completion callback fired exactly once. -/
theorem C1_witness :
    (brun boxInit [BEvent.click, BEvent.gatherFire, BEvent.closingFire]).2.count
      BOut.gatherDone = 1 ∧
    (brun boxInit [BEvent.click, BEvent.gatherFire, BEvent.closingFire]).2.count
      BOut.closingDone = 1 :=
  (C1_box_lifecycle [BEvent.click, BEvent.gatherFire, BEvent.closingFire]).2.2.2.2
    (by decide)

/-- C4: from `['active','idle','idle']`, completing box 0's cycle yields
`['closed','active','idle']` (closing-complete activates the next box);
completing all three yields `['closed','closed','closed']`, at which
point `allClosed` holds and vignette A mounts on the deploy box (and on
no earlier state). -/
theorem C4_end_to_end :
    (handleClosingDone 0 (handleGatherDone 0 (clickBox 0 heroInit))).phases =
      [.closed, .active, .idle] ∧
    (handleClosingDone 2 (handleGatherDone 2 (clickBox 2
      (handleClosingDone 1 (handleGatherDone 1 (clickBox 1
        (handleClosingDone 0 (handleGatherDone 0 (clickBox 0 heroInit))))))))).phases =
      [.closed, .closed, .closed] ∧
    allClosed (handleClosingDone 2 (handleGatherDone 2 (clickBox 2
      (handleClosingDone 1 (handleGatherDone 1 (clickBox 1
        (handleClosingDone 0 (handleGatherDone 0 (clickBox 0 heroInit))))))))) = true ∧
    showScene "deploy" (handleClosingDone 2 (handleGatherDone 2 (clickBox 2
      (handleClosingDone 1 (handleGatherDone 1 (clickBox 1
        (handleClosingDone 0 (handleGatherDone 0 (clickBox 0 heroInit))))))))) = true ∧
    showScene "deploy" heroInit = false ∧
    allClosed (handleClosingDone 0 (handleGatherDone 0 (clickBox 0 heroInit))) = false := by
  decide

/-- C5: after the vignette-B completion handler and the shake timeout,
the phases are `['active','idle','idle']` and the reset counter has
incremented by exactly 1; no other handler ever changes the reset
counter; and bumping it clears the per-box particle store so the next
idle/active phase recreates the particles from scratch. -/
theorem C5_reset :
    (∀ s : HeroState,
      (shakeTimer (handleDefineDone s)).phases = [.active, .idle, .idle] ∧
      (shakeTimer (handleDefineDone s)).resetKey = s.resetKey + 1 ∧
      (shakeTimer (handleDefineDone s)).isShaking = false ∧
      (shakeTimer (handleDefineDone s)).defineSceneActive = false ∧
      (handleDefineDone s).isShaking = true ∧
      (handleDefineDone s).resetKey = s.resetKey) ∧
    (∀ (s : HeroState) (i : ℕ),
      (clickBox i s).resetKey = s.resetKey ∧
      (handleGatherDone i s).resetKey = s.resetKey ∧
      (handleClosingDone i s).resetKey = s.resetKey ∧
      (handleDeployDone s).resetKey = s.resetKey ∧
      (shakeTimer s).resetKey = s.resetKey + 1) ∧
    (∀ w : WPState, (effectResetKey w).particles = [] ∧ (effectResetKey w).frozen = none ∧
      (effectResetKey w).gatherFired = false ∧ (effectResetKey w).closingFired = false) ∧
    (∀ (w : WPState) (words : List String) (rnd : ℕ → ℝ × ℝ × ℝ),
      (effectIdleActive words rnd .active (effectResetKey w)).particles =
        createParticles words rnd ∧
      (effectIdleActive words rnd .idle (effectResetKey w)).particles =
        createParticles words rnd) := by
  refine ⟨fun s => ⟨rfl, rfl, rfl, rfl, rfl, rfl⟩, fun s i => ⟨?_, rfl, rfl, rfl, rfl⟩,
    fun w => ⟨rfl, rfl, rfl, rfl⟩, fun w words rnd => ⟨?_, ?_⟩⟩
  · unfold clickBox
    split <;> rfl
  · simp [effectIdleActive, effectResetKey]
  · simp [effectIdleActive, effectResetKey]

/-- C7: a click changes a box's phase only when that box is active (it
then becomes gathering, other boxes untouched); a click on a box in any
other phase changes nothing at all. -/
theorem C7_click_guard (s : HeroState) (i : ℕ) :
    (s.phases.get? i = some .active →
      clickBox i s = handleClick i s ∧
      (clickBox i s).phases.get? i = some .gathering ∧
      ∀ j, j ≠ i → (clickBox i s).phases.get? j = s.phases.get? j) ∧
    (s.phases.get? i ≠ some .active → clickBox i s = s) := by
  constructor
  · intro h
    have hlt : i < s.phases.length := list_get?_some_lt s.phases i _ h
    have hcb : clickBox i s = handleClick i s := by
      unfold clickBox
      rw [if_pos h]
    refine ⟨hcb, ?_, ?_⟩
    · rw [hcb]
      show (s.phases.set i .gathering).get? i = some .gathering
      exact list_get?_set_self s.phases i _ hlt
    · intro j hj
      rw [hcb]
      show (s.phases.set i .gathering).get? j = s.phases.get? j
      exact list_get?_set_ne s.phases i j _ hj
  · intro h
    unfold clickBox
    rw [if_neg h]

/-- Witness for C7: clicking the idle second box at startup changes
nothing. -/
theorem C7_witness : clickBox 1 heroInit = heroInit :=
  (C7_click_guard heroInit 1).2 (by decide)

/-- C8: entering gathering snapshots every live particle position (in a
batch keyed by particle id, since ids are the render-order indices);
entering closing preserves the snapshot and the particles; neither the
idle/active effect nor the gathering/closing effects run outside their
own phase, so nothing else writes the snapshot while the box stays in
{gathering, closing}; the snapshot is discarded on return to idle or
active; after a reset the next gathering entry snapshots the freshly
created particles, independent of the previous loop; and while frozen
the snapshot entry at a particle's id is the render-path source
coordinate. -/
theorem C8_freeze_snapshot (w : WPState) (words : List String)
    (rnd rnd2 : ℕ → ℝ × ℝ × ℝ) :
    ((effectGathering .gathering w).1.frozen =
        some (w.particles.map fun p => (p.x, p.y)) ∧
      (effectGathering .gathering w).1.particles = w.particles) ∧
    ((effectClosing .closing w).1.frozen = w.frozen ∧
      (effectClosing .closing w).1.particles = w.particles) ∧
    (∀ ph : BoxPhase, ph = .gathering ∨ ph = .closing →
      effectIdleActive words rnd ph w = w) ∧
    (∀ (ph : BoxPhase) (w' : WPState), ph ≠ .gathering →
      effectGathering ph w' = (w', false)) ∧
    (∀ (ph : BoxPhase) (w' : WPState), ph ≠ .closing →
      effectClosing ph w' = (w', false)) ∧
    ((effectIdleActive words rnd .idle w).frozen = none ∧
      (effectIdleActive words rnd .active w).frozen = none) ∧
    ((effectGathering .gathering
        (effectIdleActive words rnd2 .active (effectResetKey w))).1.frozen =
      some ((createParticles words rnd2).map fun p => (p.x, p.y))) ∧
    (∀ k : ℕ, k < words.length →
      ((createParticles words rnd2).get? k).map Particle.id = some k) ∧
    (∀ (fr : List (ℝ × ℝ)) (p : Particle) (c : ℝ × ℝ), w.frozen = some fr →
      fr.get? p.id = some c →
      renderPos .gathering w p = c ∧ renderPos .closing w p = c) := by
  refine ⟨⟨by simp [effectGathering], by simp [effectGathering]⟩,
    ⟨by simp [effectClosing], by simp [effectClosing]⟩, ?_, ?_, ?_,
    ⟨by simp [effectIdleActive], by simp [effectIdleActive]⟩, ?_, ?_, ?_⟩
  · rintro ph (rfl | rfl) <;> rfl
  · intro ph w' h
    simp [effectGathering, h]
  · intro ph w' h
    simp [effectClosing, h]
  · simp [effectGathering, effectIdleActive, effectResetKey]
  · intro k hk
    have := createParticlesAux_get rnd2 words 0 k hk
    simpa using this
  · intro fr p c h1 h2
    have h2' : fr[p.id]? = some c := by
      rw [← List.get?_eq_getElem?]
      exact h2
    constructor <;> simp [renderPos, h1, h2']

/-- Witness for C8: the idle/active effect is a no-op while the phase is
gathering (its guard fails), so it cannot touch the snapshot. -/
theorem C8_witness : effectIdleActive [] rndW .gathering wpEx = wpEx :=
  (C8_freeze_snapshot wpEx [] rndW rndW).2.2.1 .gathering (Or.inl rfl)

/-- C9: every (re)activation of a vignette scene bumps its generation
counter and re-schedules the completion timer for the new generation;
along any event run the scheduled timer always belongs to the current
generation; hence a timer tagged with a superseded generation fires
nothing and changes nothing. -/
theorem C9_scene_generation :
    (∀ s : SceneM, (sstep s .activate).1.sceneKey = s.sceneKey + 1 ∧
      (sstep s .activate).1.pending = some (s.sceneKey + 1) ∧
      (sstep s .activate).1.done = false) ∧
    (∀ (evs : List SEvent) (g : ℕ),
      (srun sceneInit evs).pending = some g → g = (srun sceneInit evs).sceneKey) ∧
    (∀ (evs : List SEvent) (g : ℕ), g ≠ (srun sceneInit evs).sceneKey →
      sstep (srun sceneInit evs) (.fire g) = (srun sceneInit evs, false)) := by
  have hinv : ∀ evs : List SEvent, ∀ g, (srun sceneInit evs).pending = some g →
      g = (srun sceneInit evs).sceneKey :=
    fun evs => srun_pending evs sceneInit (fun g h => by simp [sceneInit] at h)
  refine ⟨fun s => ⟨rfl, rfl, rfl⟩, hinv, ?_⟩
  intro evs g hg
  have hne : (srun sceneInit evs).pending ≠ some g := by
    intro hp
    exact hg (hinv evs g hp)
  simp only [sstep, if_neg hne]

/-- Witness for C9: after two activations the generation is 2, and the
stale timer of generation 1 is ignored. -/
theorem C9_witness :
    sstep (srun sceneInit [SEvent.activate, SEvent.activate]) (SEvent.fire 1) =
      (srun sceneInit [SEvent.activate, SEvent.activate], false) :=
  C9_scene_generation.2.2 [SEvent.activate, SEvent.activate] 1 (by decide)
